import Mathlib

/-!
Verification of the Game of Life simulator in `src/main.rs`.

The simulation core (`Universe`) is embedded shallowly:

* `u32`/`usize` values become `Nat`, `i32` values become `Int`; the realistic
  grid sizes make 32-bit overflow unreachable, so wrap-around is not modelled.
* the `f32` zoom factor `scale` is modelled as an exact rational; the two
  numeric casts of the source (`as i32` on a float, truncation toward zero,
  and `.floor()`) become `ratTrunc` and `Int.floor`.  The source divides two
  integers inside `f32` and floors the result; that is the floor of the exact
  integer quotient, i.e. `Int.fdiv`.
* indexing `self.cells[i]` is modelled by `List.getD` with a `Dead` default;
  every claim that depends on it also establishes the in-bounds property.
-/

/-- Cell state of the simulator (`enum Cell { Dead = 0, Alive = 1 }`). -/
inductive Cell where
  | Dead : Cell
  | Alive : Cell
deriving DecidableEq

/-- Numeric value of a cell (`cell as u8`): `Dead = 0`, `Alive = 1`. -/
def Cell.toNat : Cell → Nat
  | Cell.Dead => 0
  | Cell.Alive => 1

/-- Truncation toward zero of a rational, the behaviour of Rust's `as i32`
cast on an `f32` value (saturation at the `i32` range is unreachable for the
magnitudes involved and is not modelled). -/
def ratTrunc (q : Rat) : Int :=
  if q < 0 then -Int.floor (-q) else Int.floor q

/-- One filled-rectangle draw call issued by `Universe::render`:
`canvas.fill_rect(Rect::new(x, y, w, h))` with the colour chosen from the
cell state (white when alive, black when dead). -/
structure RectSpec where
  x : Int
  y : Int
  w : Nat
  h : Nat
  alive : Bool
deriving DecidableEq

/-- Rust's slice iterator `cells.chunks(w)`: splits a list into consecutive
chunks of length `w` (the final chunk may be shorter).  `chunks(0)` panics in
Rust; that case is mapped to the empty list and never reached under the
grid invariants. -/
def chunks {α : Type} (w : Nat) : List α → List (List α)
  | [] => []
  | x :: xs =>
      if _hw : w = 0 then []
      else (x :: xs).take w :: chunks w ((x :: xs).drop w)
termination_by l => l.length
decreasing_by
  simp only [List.length_drop, List.length_cons]
  omega

/-- The `Universe` struct of `src/main.rs`: grid dimensions, the dense
row-major cell sequence, the run flag, the pixel pan offsets, the zoom
`scale` (an `f32`, modelled exactly), and the two fixed pixel constants
(inter-cell `spacing` and the cell square's `leg_size`). -/
structure Universe where
  width : Nat
  height : Nat
  cells : List Cell
  running : Bool
  x_offset : Int
  y_offset : Int
  scale : Rat
  spacing : Nat
  leg_size : Nat
deriving DecidableEq

namespace Universe

/-- `Universe::new(height, width)`: all cells dead, paused, zero offsets,
scale `1.0`, leg size `10`, spacing `1`. -/
def new (height width : Nat) : Universe :=
  { height := height
    width := width
    cells := List.replicate (width * height) Cell.Dead
    running := false
    x_offset := 0
    y_offset := 0
    scale := 1
    leg_size := 10
    spacing := 1 }

/-- `Universe::get_index`: row-major linear index `row * width + col`. -/
def get_index (u : Universe) (row col : Nat) : Nat :=
  row * u.width + col

/-- `Universe::get_live_neighbors`: iterates the modifier lists
`[height-1, 0, 1]` and `[width-1, 0, 1]`, skips the pair `(0, 0)`, wraps each
coordinate with `%`, and sums the numeric cell values. -/
def get_live_neighbors (u : Universe) (row col : Nat) : Nat :=
  (([u.height - 1, 0, 1]).map (fun row_modifier =>
    (([u.width - 1, 0, 1]).map (fun col_modifier =>
      if row_modifier = 0 ∧ col_modifier = 0 then 0
      else
        Cell.toNat (u.cells.getD
          (u.get_index ((row + row_modifier) % u.height) ((col + col_modifier) % u.width))
          Cell.Dead))).sum)).sum

/-- The `match (live_neighbors, cell)` of `Universe::tick`, arm by arm:
alive with fewer than 2 neighbours dies, alive with more than 3 dies, alive
with 2 or 3 stays alive, dead with exactly 3 revives, anything else is kept. -/
def next_cell (live_neighbors : Nat) (cell : Cell) : Cell :=
  if cell = Cell.Alive ∧ live_neighbors < 2 then Cell.Dead
  else if cell = Cell.Alive ∧ live_neighbors > 3 then Cell.Dead
  else if cell = Cell.Alive ∧ (live_neighbors = 2 ∨ live_neighbors = 3) then Cell.Alive
  else if cell = Cell.Dead ∧ live_neighbors = 3 then Cell.Alive
  else cell

/-- `Universe::tick`: returns immediately when not running; otherwise clones
the cells into `next`, overwrites every index from the old snapshot
(`self.cells` and `self.get_live_neighbors` both read the snapshot), and
finally replaces `self.cells` with `next`. -/
def tick (u : Universe) : Universe :=
  match u.running with
  | false => u
  | true =>
      let next :=
        (List.range u.height).foldl (fun next row =>
          (List.range u.width).foldl (fun next col =>
            next.set (u.get_index row col)
              (next_cell (u.get_live_neighbors row col)
                (u.cells.getD (u.get_index row col) Cell.Dead))) next) u.cells
      { u with cells := next }

/-- The per-cell pixel stride of the view transform,
`((leg_size + spacing * 2) as f32 * scale) as i32`, shared verbatim by
`render` (the `current_x`/`current_y` increments) and `get_by_coordinates`
(`x_size`/`y_size`). -/
def cellStep (u : Universe) : Int :=
  ratTrunc (((u.leg_size + u.spacing * 2 : Nat) : Rat) * u.scale)

/-- The drawn square's side, `(leg_size as f32 * scale).floor() as u32`
(the `as u32` cast clamps negative values to zero, hence `Int.toNat`). -/
def legPx (u : Universe) : Nat :=
  (Int.floor ((u.leg_size : Rat) * u.scale)).toNat

/-- Inner loop of `Universe::render` over one row of cells: one rectangle per
cell, starting at `cx` and advancing `current_x` by the cell stride. -/
def renderRow (u : Universe) (cy : Int) : Int → List Cell → List RectSpec
  | _, [] => []
  | cx, cell :: rest =>
      { x := cx, y := cy, w := u.legPx, h := u.legPx, alive := cell == Cell.Alive }
        :: renderRow u cy (cx + u.cellStep) rest

/-- Outer loop of `Universe::render` over the row chunks: each row starts at
`current_x = x_offset`, and `current_y` advances by the cell stride. -/
def renderRows (u : Universe) : Int → List (List Cell) → List RectSpec
  | _, [] => []
  | cy, r :: rs => renderRow u cy u.x_offset r ++ renderRows u (cy + u.cellStep) rs

/-- `Universe::render`: traverses `cells.chunks(width)` and issues one filled
rectangle per cell; modelled as the list of issued draw calls. -/
def render (u : Universe) : List RectSpec :=
  renderRows u u.y_offset (chunks u.width u.cells)

/-- `Universe::get_by_coordinates`: recovers the cell under pixel `(x, y)` by
flooring `(coordinate - offset) / cell stride`, rejects indices that are
negative or beyond the grid, and otherwise forms the linear index. -/
def get_by_coordinates (u : Universe) (x y : Int) : Option Nat :=
  let x_size : Int := u.cellStep
  let y_size : Int := u.cellStep
  let y_index : Int := Int.fdiv (y - u.y_offset) y_size
  let x_index : Int := Int.fdiv (x - u.x_offset) x_size
  if y_index < 0 ∨ x_index < 0 ∨ (u.height : Int) ≤ y_index ∨ (u.width : Int) ≤ x_index then
    none
  else
    some (y_index.toNat * u.width + x_index.toNat)

/-- `Universe::kill`: resolve the pixel, return unchanged when unresolved,
otherwise overwrite the resolved cell with `Dead`. -/
def kill (u : Universe) (x y : Int) : Universe :=
  match u.get_by_coordinates x y with
  | none => u
  | some cell_index => { u with cells := u.cells.set cell_index Cell.Dead }

/-- `Universe::revive`: resolve the pixel, return unchanged when unresolved,
otherwise overwrite the resolved cell with `Alive`. -/
def revive (u : Universe) (x y : Int) : Universe :=
  match u.get_by_coordinates x y with
  | none => u
  | some cell_index => { u with cells := u.cells.set cell_index Cell.Alive }

/-- `Universe::toggle_state`: `running ^= true`. -/
def toggle_state (u : Universe) : Universe :=
  { u with running := !u.running }

/-- `Universe::pause`: clear the run flag. -/
def pause (u : Universe) : Universe :=
  { u with running := false }

/-- `Universe::run`: set the run flag. -/
def run (u : Universe) : Universe :=
  { u with running := true }

/-- `Universe::shift`: add the pixel delta to the pan offsets. -/
def shift (u : Universe) (x y : Int) : Universe :=
  { u with x_offset := u.x_offset + x, y_offset := u.y_offset + y }

/-- `Universe::increment_scale`: add the wheel delta to the zoom factor. -/
def increment_scale (u : Universe) (increment : Rat) : Universe :=
  { u with scale := u.scale + increment }

/-- `Universe::reset`: replace the cells with an all-dead sequence of the
same `width * height` size. -/
def reset (u : Universe) : Universe :=
  { u with cells := List.replicate (u.width * u.height) Cell.Dead }

/-- Stated from the spec's words (B3/S23 rule table of §4.1): alive with
fewer than 2 neighbours dies, alive with more than 3 dies, alive with 2 or 3
survives, dead with exactly 3 is born, every other cell is unchanged. -/
def lifeRule (cell : Cell) (neighbors : Nat) : Cell :=
  match cell with
  | Cell.Alive =>
      if neighbors < 2 then Cell.Dead
      else if neighbors > 3 then Cell.Dead
      else Cell.Alive
  | Cell.Dead => if neighbors = 3 then Cell.Alive else Cell.Dead

/-- Stated from the spec's words: the next generation computed for every cell
simultaneously from the pre-tick snapshot, in row-major order. -/
def nextGeneration (u : Universe) : List Cell :=
  (List.range u.height).flatMap (fun row =>
    (List.range u.width).map (fun col =>
      lifeRule (u.cells.getD (u.get_index row col) Cell.Dead) (u.get_live_neighbors row col)))

/-- The 8 neighbour offsets of the spec: `±1` in each dimension, the cell
itself (offset `(0, 0)`) excluded. -/
def neighborOffsets : List (Int × Int) :=
  [(-1, -1), (-1, 0), (-1, 1), (0, -1), (0, 1), (1, -1), (1, 0), (1, 1)]

/-- Stated from the spec's words: the 8 toroidally wrapped neighbour
positions of `(row, col)`, each offset taken modulo `height`/`width`. -/
def neighborPositions (u : Universe) (row col : Nat) : List (Nat × Nat) :=
  neighborOffsets.map (fun d =>
    ((((row : Int) + d.1) % (u.height : Int)).toNat,
     (((col : Int) + d.2) % (u.width : Int)).toNat))

/-- Stated from the spec's words: the number of alive cells among the 8
toroidally wrapped neighbours. -/
def wrappedNeighborCount (u : Universe) (row col : Nat) : Nat :=
  ((u.neighborPositions row col).map (fun p =>
    Cell.toNat (u.cells.getD (p.1 * u.width + p.2) Cell.Dead))).sum

/-- Stated from the claim's words: `cell_pixel_size =
floor((leg_size + spacing * 2) * scale)`. -/
def cellPixelSizeSpec (u : Universe) : Int :=
  Int.floor (((u.leg_size + u.spacing * 2 : Nat) : Rat) * u.scale)

/-- Stated from the claim's words: `row = floor((y - y_offset) /
cell_pixel_size)`, `col = floor((x - x_offset) / cell_pixel_size)`, `none`
exactly when the recovered row or column is negative or at least the grid
dimension, and otherwise the linear index `row * width + col`. -/
def pixel_to_cell_index_spec (u : Universe) (x y : Int) : Option Nat :=
  let size := u.cellPixelSizeSpec
  let row : Int := Int.fdiv (y - u.y_offset) size
  let col : Int := Int.fdiv (x - u.x_offset) size
  if row < 0 ∨ col < 0 ∨ (u.height : Int) ≤ row ∨ (u.width : Int) ≤ col then
    none
  else
    some (row.toNat * u.width + col.toNat)

end Universe

/-- The cells of a 5×5 grid holding a horizontal blinker in its middle row,
well away from the wrap seam. -/
def blinkerCells : List Cell :=
  [Cell.Dead, Cell.Dead, Cell.Dead, Cell.Dead, Cell.Dead,
   Cell.Dead, Cell.Dead, Cell.Dead, Cell.Dead, Cell.Dead,
   Cell.Dead, Cell.Alive, Cell.Alive, Cell.Alive, Cell.Dead,
   Cell.Dead, Cell.Dead, Cell.Dead, Cell.Dead, Cell.Dead,
   Cell.Dead, Cell.Dead, Cell.Dead, Cell.Dead, Cell.Dead]

/-- A running 5×5 universe holding the blinker. -/
def blinkerUniverse : Universe :=
  { width := 5
    height := 5
    cells := blinkerCells
    running := true
    x_offset := 0
    y_offset := 0
    scale := 1
    spacing := 1
    leg_size := 10 }

/-- A degenerate 1×1 universe whose only cell is alive. -/
def oneByOneUniverse : Universe :=
  { width := 1
    height := 1
    cells := [Cell.Alive]
    running := false
    x_offset := 0
    y_offset := 0
    scale := 1
    spacing := 1
    leg_size := 10 }

/-- A 3×3 universe whose scale has been driven to `-1.0` (reachable through
repeated negative wheel deltas, which `increment_scale` never clamps). -/
def negativeScaleUniverse : Universe :=
  { Universe.new 3 3 with scale := -1 }

/-- Any fold whose step preserves the list length preserves the list length. -/
theorem foldl_length_invariant {α β : Type} (step : List α → β → List α)
    (hstep : ∀ acc b, (step acc b).length = acc.length) :
    ∀ (xs : List β) (L : List α), (xs.foldl step L).length = L.length := by
  intro xs
  induction xs with
  | nil => intro L; rfl
  | cons b t ih => intro L; rw [List.foldl_cons, ih, hstep]

/-- `tick` preserves the length of the cell sequence. -/
theorem tick_cells_length (u : Universe) : u.tick.cells.length = u.cells.length := by
  cases hr : u.running with
  | false => simp [Universe.tick, hr]
  | true =>
      simp only [Universe.tick, hr]
      exact foldl_length_invariant _
        (fun acc row => foldl_length_invariant _
          (fun acc2 col => List.length_set _ _ _) _ acc) _ _

/-- `tick` keeps the grid width. -/
theorem tick_width (u : Universe) : u.tick.width = u.width := by
  cases hr : u.running <;> simp [Universe.tick, hr]

/-- `tick` keeps the grid height. -/
theorem tick_height (u : Universe) : u.tick.height = u.height := by
  cases hr : u.running <;> simp [Universe.tick, hr]

/-- Claim C10: whether running or paused, `tick` mutates only the cell
sequence; the dimensions, the run flag, the pan offsets, the zoom scale and
the two pixel constants all survive the call unchanged. -/
theorem tick_preserves_view_fields (u : Universe) :
    u.tick.width = u.width ∧ u.tick.height = u.height ∧
    u.tick.running = u.running ∧ u.tick.x_offset = u.x_offset ∧
    u.tick.y_offset = u.y_offset ∧ u.tick.scale = u.scale ∧
    u.tick.leg_size = u.leg_size ∧ u.tick.spacing = u.spacing := by
  cases hr : u.running <;> simp [Universe.tick, hr]

/-- Claim C4: with `running = false`, `tick` never changes the cell
sequence, regardless of the prior configuration. -/
theorem tick_paused_cells_unchanged (u : Universe) (h : u.running = false) :
    u.tick.cells = u.cells := by
  simp [Universe.tick, h]

/-- Witness for claim C4 at the concrete freshly created 2×2 grid. -/
theorem tick_paused_cells_unchanged_witness :
    (Universe.new 2 2).tick.cells = (Universe.new 2 2).cells :=
  tick_paused_cells_unchanged (Universe.new 2 2) rfl

/-- Claim C8: `reset` makes every cell of the sequence dead and leaves the
dimensions, the offsets, the scale and the run flag untouched. -/
theorem reset_kills_all_cells (u : Universe) :
    (∀ c ∈ u.reset.cells, c = Cell.Dead) ∧
    u.reset.width = u.width ∧ u.reset.height = u.height ∧
    u.reset.x_offset = u.x_offset ∧ u.reset.y_offset = u.y_offset ∧
    u.reset.scale = u.scale ∧ u.reset.running = u.running := by
  refine ⟨?_, rfl, rfl, rfl, rfl, rfl, rfl⟩
  intro c hc
  exact List.eq_of_mem_replicate hc

/-- Claim C9: on the 5×5 grid the blinker returns to its original
configuration after exactly two generations: two ticks restore the cell
sequence and a single tick does not. -/
theorem blinker_period_two :
    blinkerUniverse.tick.tick.cells = blinkerUniverse.cells ∧
    blinkerUniverse.tick.cells ≠ blinkerUniverse.cells := by
  constructor
  · decide
  · decide

/-- Folding `set (s + c)` over `range n` overwrites the slice of length `n`
that starts at position `s` with the generated values. -/
theorem foldl_set_range {α : Type} (g : Nat → α) :
    ∀ (n s : Nat) (L : List α), s + n ≤ L.length →
    (List.range n).foldl (fun acc c => acc.set (s + c) (g c)) L
      = L.take s ++ (List.range n).map g ++ L.drop (s + n) := by
  intro n
  induction n with
  | zero => intro s L h; simp
  | succ n ih =>
      intro s L h
      rw [List.range_succ, List.foldl_append, ih s L (by omega)]
      simp only [List.foldl_cons, List.foldl_nil]
      have hsn : s + n < L.length := by omega
      have hAB : (L.take s ++ (List.range n).map g).length = s + n := by
        simp only [List.length_append, List.length_take, List.length_map,
          List.length_range]
        omega
      rw [List.set_append, hAB, if_neg (lt_irrefl _), Nat.sub_self]
      have hset : (List.drop (s + n) L).set 0 (g n) = g n :: List.drop (s + (n + 1)) L := by
        rw [List.drop_eq_getElem_cons hsn]
        have harith : s + n + 1 = s + (n + 1) := by omega
        simp [harith]
      rw [hset]
      simp [List.range_succ, List.append_assoc]

/-- Claim C3: the cell sequence length equals `width * height` after
creation and after every public mutation, and the row-major index of
`(row, col)` is `row * width + col`. -/
theorem cells_length_invariant (h w : Nat) (u : Universe)
    (hinv : u.cells.length = u.width * u.height)
    (x y dx dy : Int) (d : Rat) (row col : Nat) :
    (Universe.new h w).cells.length = (Universe.new h w).width * (Universe.new h w).height ∧
    u.tick.cells.length = u.tick.width * u.tick.height ∧
    u.reset.cells.length = u.reset.width * u.reset.height ∧
    (u.kill x y).cells.length = (u.kill x y).width * (u.kill x y).height ∧
    (u.revive x y).cells.length = (u.revive x y).width * (u.revive x y).height ∧
    u.toggle_state.cells.length = u.toggle_state.width * u.toggle_state.height ∧
    u.pause.cells.length = u.pause.width * u.pause.height ∧
    u.run.cells.length = u.run.width * u.run.height ∧
    (u.shift dx dy).cells.length = (u.shift dx dy).width * (u.shift dx dy).height ∧
    (u.increment_scale d).cells.length =
      (u.increment_scale d).width * (u.increment_scale d).height ∧
    u.get_index row col = row * u.width + col := by
  refine ⟨?_, ?_, ?_, ?_, ?_, ?_, ?_, ?_, ?_, ?_, rfl⟩
  · simp [Universe.new]
  · rw [tick_cells_length, tick_width, tick_height]; exact hinv
  · simp [Universe.reset]
  · cases hk : u.get_by_coordinates x y <;> simp [Universe.kill, hk, hinv]
  · cases hk : u.get_by_coordinates x y <;> simp [Universe.revive, hk, hinv]
  · simpa [Universe.toggle_state] using hinv
  · simpa [Universe.pause] using hinv
  · simpa [Universe.run] using hinv
  · simpa [Universe.shift] using hinv
  · simpa [Universe.increment_scale] using hinv

/-- Witness for claim C3 at a freshly created 3×2 grid and concrete inputs. -/
theorem cells_length_invariant_witness :
    (Universe.new 4 5).cells.length = (Universe.new 4 5).width * (Universe.new 4 5).height ∧
    (Universe.new 3 2).tick.cells.length =
      (Universe.new 3 2).tick.width * (Universe.new 3 2).tick.height ∧
    (Universe.new 3 2).reset.cells.length =
      (Universe.new 3 2).reset.width * (Universe.new 3 2).reset.height ∧
    ((Universe.new 3 2).kill 7 8).cells.length =
      ((Universe.new 3 2).kill 7 8).width * ((Universe.new 3 2).kill 7 8).height ∧
    ((Universe.new 3 2).revive 7 8).cells.length =
      ((Universe.new 3 2).revive 7 8).width * ((Universe.new 3 2).revive 7 8).height ∧
    (Universe.new 3 2).toggle_state.cells.length =
      (Universe.new 3 2).toggle_state.width * (Universe.new 3 2).toggle_state.height ∧
    (Universe.new 3 2).pause.cells.length =
      (Universe.new 3 2).pause.width * (Universe.new 3 2).pause.height ∧
    (Universe.new 3 2).run.cells.length =
      (Universe.new 3 2).run.width * (Universe.new 3 2).run.height ∧
    ((Universe.new 3 2).shift 1 (-2)).cells.length =
      ((Universe.new 3 2).shift 1 (-2)).width * ((Universe.new 3 2).shift 1 (-2)).height ∧
    ((Universe.new 3 2).increment_scale (1 / 10)).cells.length =
      ((Universe.new 3 2).increment_scale (1 / 10)).width *
        ((Universe.new 3 2).increment_scale (1 / 10)).height ∧
    (Universe.new 3 2).get_index 2 1 = 2 * (Universe.new 3 2).width + 1 :=
  cells_length_invariant 4 5 (Universe.new 3 2) (by decide) 7 8 1 (-2) (1 / 10) 2 1


/-- The row-major flat list of `k` generated rows of width `w` has length
`k * w`. -/
theorem length_flat_rows {α : Type} (w : Nat) (G : Nat → Nat → α) (k : Nat) :
    ((List.range k).flatMap (fun row => (List.range w).map (G row))).length = k * w := by
  induction k with
  | zero => simp
  | succ k ih =>
      rw [List.range_succ, List.flatMap_append, List.length_append, ih]
      simp [Nat.succ_mul]

/-- The double write loop of `tick` over the first `k` rows turns the cell
sequence into the `k` freshly generated rows followed by the untouched tail
of the original sequence. -/
theorem tick_rows_fold (u : Universe) (G : Nat → Nat → Cell)
    (hinv : u.cells.length = u.width * u.height) :
    ∀ k, k ≤ u.height →
    (List.range k).foldl (fun acc row =>
      (List.range u.width).foldl
        (fun acc2 col => acc2.set (u.get_index row col) (G row col)) acc)
      u.cells
    = ((List.range k).flatMap (fun row => (List.range u.width).map (G row)))
        ++ u.cells.drop (k * u.width) := by
  intro k
  induction k with
  | zero => simp
  | succ k ih =>
      intro hk
      rw [List.range_succ, List.foldl_append, ih (by omega)]
      simp only [List.foldl_cons, List.foldl_nil]
      have hflat :
          ((List.range k).flatMap (fun row => (List.range u.width).map (G row))).length
            = k * u.width := length_flat_rows u.width G k
      have hlen :
          ((List.range k).flatMap (fun row => (List.range u.width).map (G row))
            ++ u.cells.drop (k * u.width)).length = u.width * u.height := by
        simp [hflat, hinv]
        have : k * u.width ≤ u.width * u.height := by
          calc k * u.width ≤ u.height * u.width :=
                Nat.mul_le_mul_right _ (by omega)
            _ = u.width * u.height := Nat.mul_comm _ _
        omega
      have hbound : k * u.width + u.width ≤ u.width * u.height := by
        calc k * u.width + u.width = (k + 1) * u.width := (Nat.succ_mul _ _).symm
          _ ≤ u.height * u.width := Nat.mul_le_mul_right _ hk
          _ = u.width * u.height := Nat.mul_comm _ _
      have hinner := foldl_set_range (G k) u.width (k * u.width)
        ((List.range k).flatMap (fun row => (List.range u.width).map (G row))
          ++ u.cells.drop (k * u.width))
        (by rw [hlen]; exact hbound)
      simp only [Universe.get_index]
      rw [hinner]
      rw [List.take_left' hflat]
      have hdropdrop :
          ((List.range k).flatMap (fun row => (List.range u.width).map (G row))
            ++ u.cells.drop (k * u.width)).drop (k * u.width + u.width)
          = u.cells.drop ((k + 1) * u.width) := by
        rw [← List.drop_drop, List.drop_left' hflat, List.drop_drop, Nat.succ_mul]
      rw [hdropdrop, List.flatMap_append]
      simp [List.append_assoc]

/-- The inline `match` of `tick` is the spec's B3/S23 rule table. -/
theorem next_cell_eq_lifeRule (n : Nat) (c : Cell) :
    Universe.next_cell n c = Universe.lifeRule c n := by
  cases c <;> simp [Universe.next_cell, Universe.lifeRule]

/-- Claim C1: with `running = true`, `tick` replaces the cell sequence with
the B3/S23 next generation computed for every cell simultaneously from the
pre-tick snapshot (both the cell's own state and its neighbour count are
read from the snapshot, never from cells already updated in the pass). -/
theorem tick_computes_nextGeneration (u : Universe)
    (hrun : u.running = true) (hinv : u.cells.length = u.width * u.height) :
    u.tick.cells = u.nextGeneration := by
  simp only [Universe.tick, hrun]
  have hfold := tick_rows_fold u
    (fun row col =>
      Universe.next_cell (u.get_live_neighbors row col)
        (u.cells.getD (u.get_index row col) Cell.Dead))
    hinv u.height le_rfl
  have hdrop : u.cells.drop (u.height * u.width) = [] := by
    apply List.drop_eq_nil_of_le
    rw [hinv]
    exact Nat.le_of_eq (Nat.mul_comm _ _)
  rw [hfold, hdrop, List.append_nil]
  simp only [Universe.nextGeneration, next_cell_eq_lifeRule]

/-- Witness for claim C1: a freshly created 2×3 grid set running. -/
theorem tick_computes_nextGeneration_witness :
    (Universe.new 2 3).run.tick.cells = (Universe.new 2 3).run.nextGeneration :=
  tick_computes_nextGeneration (Universe.new 2 3).run rfl (by decide)

/-- Euclidean remainder of `-1` by a positive `d` is `d - 1`. -/
theorem neg_one_emod_toNat (d : Nat) (hd : 1 ≤ d) :
    ((-1 : Int) % (d : Int)).toNat = d - 1 := by
  have h1 : (-1 : Int) % d = (d : Int) - 1 := by
    conv_lhs => rw [show (-1 : Int) = ((d : Int) - 1) + d * (-1) by ring]
    rw [Int.add_mul_emod_self_left]
    exact Int.emod_eq_of_lt (by omega) (by omega)
  omega

/-- The `-1` offset wrapped with the euclidean remainder agrees with the
source's `(r + (d - 1)) % d` pattern. -/
theorem wrap_sub_one (d r : Nat) (hr : r < d) :
    (((r : Int) + (-1)) % (d : Int)).toNat = (r + (d - 1)) % d := by
  cases r with
  | zero =>
      have h1 := neg_one_emod_toNat d (by omega)
      have h2 : (0 + (d - 1)) % d = d - 1 := by
        rw [Nat.zero_add]
        exact Nat.mod_eq_of_lt (by omega)
      rw [h2]
      simpa using h1
  | succ r' =>
      have hlt : r' < d := by omega
      have hcast : ((Nat.succ r' : Nat) : Int) + (-1) = (r' : Int) := by
        push_cast
        ring
      rw [hcast, Int.emod_eq_of_lt (by omega) (by exact_mod_cast hlt)]
      have h2 : (Nat.succ r' + (d - 1)) % d = r' := by
        have : Nat.succ r' + (d - 1) = r' + d := by omega
        rw [this, Nat.add_mod_right]
        exact Nat.mod_eq_of_lt hlt
      rw [h2]
      exact Int.toNat_natCast r'

/-- The `0` offset wrapped with the euclidean remainder agrees with the
source's `(r + 0) % d` pattern. -/
theorem wrap_zero (d r : Nat) :
    (((r : Int) + 0) % (d : Int)).toNat = (r + 0) % d := by
  have hcast : ((r : Int) + 0) = ((r + 0 : Nat) : Int) := by push_cast; ring
  rw [hcast, ← Int.natCast_mod, Int.toNat_natCast]

/-- The `+1` offset wrapped with the euclidean remainder agrees with the
source's `(r + 1) % d` pattern. -/
theorem wrap_one (d r : Nat) :
    (((r : Int) + 1) % (d : Int)).toNat = (r + 1) % d := by
  have hcast : ((r : Int) + 1) = ((r + 1 : Nat) : Int) := by push_cast; ring
  rw [hcast, ← Int.natCast_mod, Int.toNat_natCast]

/-- Claim C2 (amended to grids with both dimensions at least 2): the
source's neighbour count equals the number of alive cells among the 8
offset-wrapped neighbour positions of the spec, and the neighbour positions
of `(0, 0)` include `(height - 1, width - 1)`.  On 1-wide or 1-tall grids
the source's centre-skip test also skips wrapped copies and the counts
disagree. -/
theorem neighbor_count_eq_wrapped (u : Universe) (row col : Nat)
    (hr : row < u.height) (hc : col < u.width)
    (hh : 2 ≤ u.height) (hw : 2 ≤ u.width) :
    u.get_live_neighbors row col = u.wrappedNeighborCount row col ∧
    (u.height - 1, u.width - 1) ∈ u.neighborPositions 0 0 := by
  constructor
  · have hh1 : ¬ (u.height - 1 = 0) := by omega
    have hw1 : ¬ (u.width - 1 = 0) := by omega
    simp only [Universe.get_live_neighbors, Universe.wrappedNeighborCount,
      Universe.neighborPositions, Universe.neighborOffsets, Universe.get_index,
      List.map_cons, List.map_nil, List.sum_cons, List.sum_nil]
    simp only [wrap_sub_one u.height row hr, wrap_sub_one u.width col hc,
      wrap_zero u.height row, wrap_zero u.width col,
      wrap_one u.height row, wrap_one u.width col]
    simp [hh1, hw1]
    omega
  · have h1 := neg_one_emod_toNat u.height (by omega)
    have h2 := neg_one_emod_toNat u.width (by omega)
    simp only [Universe.neighborPositions, Universe.neighborOffsets,
      List.map_cons, List.map_nil, List.mem_cons]
    left
    simp only [Nat.cast_zero, zero_add, Prod.mk.injEq]
    exact ⟨h1.symm, h2.symm⟩

/-- Witness for claim C2 at a 3×4 grid and the interior cell `(1, 2)`. -/
theorem neighbor_count_eq_wrapped_witness :
    (Universe.new 3 4).get_live_neighbors 1 2
      = (Universe.new 3 4).wrappedNeighborCount 1 2 ∧
    ((Universe.new 3 4).height - 1, (Universe.new 3 4).width - 1)
      ∈ (Universe.new 3 4).neighborPositions 0 0 :=
  neighbor_count_eq_wrapped (Universe.new 3 4) 1 2 (by decide) (by decide)
    (by decide) (by decide)

/-- Counterexample to claim C2 as stated: on the degenerate 1×1 universe
with its only cell alive, the source counts 5 (its centre-skip test also
skips three wrapped copies of the cell) while the 8 wrapped neighbour
positions of the spec all hold the alive cell, giving 8. -/
theorem neighbor_count_claim_false_on_one_by_one :
    oneByOneUniverse.get_live_neighbors 0 0 = 5 ∧
    oneByOneUniverse.wrappedNeighborCount 0 0 = 8 ∧
    oneByOneUniverse.get_live_neighbors 0 0 ≠ oneByOneUniverse.wrappedNeighborCount 0 0 :=
  ⟨by decide, by decide, by decide⟩

/-- When the floor of a rational is at least 1, truncation toward zero and
floor agree. -/
theorem ratTrunc_eq_floor_of_one_le (q : Rat) (h : 1 ≤ Int.floor q) :
    ratTrunc q = Int.floor q := by
  have h1 : (1 : Rat) ≤ q := by
    have := Int.le_floor.mp h
    exact_mod_cast this
  rw [ratTrunc, if_neg (by linarith)]

/-- Under a cell pixel size of at least 1, the `as i32` truncation of the
source equals the floor of the claim. -/
theorem cellStep_eq_spec (u : Universe) (h : 1 ≤ u.cellPixelSizeSpec) :
    u.cellStep = u.cellPixelSizeSpec :=
  ratTrunc_eq_floor_of_one_le _ h

/-- Claim C5 (amended to grids whose cell pixel size
`floor((leg_size + spacing * 2) * scale)` is at least 1): the source's
pixel-to-cell resolution computes exactly the claim's formula — floor the
offset-relative coordinates by the cell pixel size, reject a negative or
too-large row or column with `none`, and otherwise return `row * width +
col` — and the pixel column exactly one pixel left of the grid's left edge
resolves to `none`.  With a zero or negative cell pixel size (reachable
through unclamped negative wheel deltas) the boundary clause fails. -/
theorem get_by_coordinates_matches_spec (u : Universe) (x y yb : Int)
    (hsize : 1 ≤ u.cellPixelSizeSpec) :
    u.get_by_coordinates x y = u.pixel_to_cell_index_spec x y ∧
    u.get_by_coordinates (u.x_offset - 1) yb = none := by
  have hstep : u.cellStep = u.cellPixelSizeSpec := cellStep_eq_spec u hsize
  constructor
  · simp only [Universe.get_by_coordinates, Universe.pixel_to_cell_index_spec, hstep]
  · simp only [Universe.get_by_coordinates, hstep]
    have hx : u.x_offset - 1 - u.x_offset = -1 := by ring
    rw [hx]
    have hneg : Int.fdiv (-1) u.cellPixelSizeSpec < 0 := by
      rw [Int.fdiv_eq_ediv _ (by omega)]
      exact Int.ediv_neg' (by omega) (by omega)
    rw [if_pos (Or.inr (Or.inl hneg))]

/-- Witness for claim C5 at a fresh 2×2 grid (cell pixel size 12) and the
concrete pixel `(5, 17)`. -/
theorem get_by_coordinates_matches_spec_witness :
    (Universe.new 2 2).get_by_coordinates 5 17
      = (Universe.new 2 2).pixel_to_cell_index_spec 5 17 ∧
    (Universe.new 2 2).get_by_coordinates ((Universe.new 2 2).x_offset - 1) 3 = none :=
  get_by_coordinates_matches_spec (Universe.new 2 2) 5 17 3
    (by simp [Universe.cellPixelSizeSpec, Universe.new])

/-- Counterexample to claim C5 as stated: on the 3×3 universe whose scale
has been wheeled down to `-1.0`, the pixel exactly one column left of
`x_offset` resolves to cell 0 instead of `none` (the truncated cell size is
`-12`, so both floored quotients are 0). -/
theorem boundary_pixel_claim_false_on_negative_scale :
    negativeScaleUniverse.get_by_coordinates
      (negativeScaleUniverse.x_offset - 1) 0 = some 0 := by
  have hstep : negativeScaleUniverse.cellStep = -12 := by
    norm_num [negativeScaleUniverse, Universe.cellStep, ratTrunc, Universe.new]
  simp only [Universe.get_by_coordinates, hstep]
  decide

/-- Whenever `get_by_coordinates` resolves a pixel, the resolved index is
the in-range row-major index built from the two floored quotients. -/
theorem get_by_coordinates_some_bounds (u : Universe) (x y : Int) (idx : Nat)
    (h : u.get_by_coordinates x y = some idx) :
    0 < u.width ∧ 0 < u.height ∧ idx < u.width * u.height ∧
    idx = (Int.fdiv (y - u.y_offset) u.cellStep).toNat * u.width
        + (Int.fdiv (x - u.x_offset) u.cellStep).toNat ∧
    0 ≤ Int.fdiv (y - u.y_offset) u.cellStep ∧
    Int.fdiv (y - u.y_offset) u.cellStep < (u.height : Int) ∧
    0 ≤ Int.fdiv (x - u.x_offset) u.cellStep ∧
    Int.fdiv (x - u.x_offset) u.cellStep < (u.width : Int) := by
  simp only [Universe.get_by_coordinates] at h
  split at h
  · exact absurd h (by simp)
  · rename_i hcond
    push_neg at hcond
    obtain ⟨h1, h2, h3, h4⟩ := hcond
    rw [Option.some.injEq] at h
    have hyN : (Int.fdiv (y - u.y_offset) u.cellStep).toNat < u.height := by omega
    have hxN : (Int.fdiv (x - u.x_offset) u.cellStep).toNat < u.width := by omega
    refine ⟨by omega, by omega, ?_, h.symm, h1, h3, h2, h4⟩
    calc idx = (Int.fdiv (y - u.y_offset) u.cellStep).toNat * u.width
            + (Int.fdiv (x - u.x_offset) u.cellStep).toNat := h.symm
      _ < (Int.fdiv (y - u.y_offset) u.cellStep).toNat * u.width + u.width :=
            Nat.add_lt_add_left hxN _
      _ = ((Int.fdiv (y - u.y_offset) u.cellStep).toNat + 1) * u.width :=
            (Nat.succ_mul _ _).symm
      _ ≤ u.height * u.width := Nat.mul_le_mul_right _ (by omega)
      _ = u.width * u.height := Nat.mul_comm _ _

/-- Claim C7: `kill` and `revive` resolve the pixel through the shared
pixel-to-cell transform; an unresolved pixel leaves the universe completely
unchanged, and a resolved pixel names an in-bounds cell (so the write can
never fail) which is forced to `Dead` or `Alive` while every other cell and
every other field is untouched. -/
theorem kill_revive_resolve_or_noop (u : Universe) (x y : Int)
    (hinv : u.cells.length = u.width * u.height) :
    (u.get_by_coordinates x y = none → u.kill x y = u ∧ u.revive x y = u) ∧
    (∀ idx, u.get_by_coordinates x y = some idx →
      idx < u.cells.length ∧
      (u.kill x y).cells = u.cells.set idx Cell.Dead ∧
      (u.revive x y).cells = u.cells.set idx Cell.Alive ∧
      (u.kill x y).cells.getD idx Cell.Alive = Cell.Dead ∧
      (u.revive x y).cells.getD idx Cell.Dead = Cell.Alive ∧
      (∀ j, j ≠ idx →
        (u.kill x y).cells.getD j Cell.Dead = u.cells.getD j Cell.Dead ∧
        (u.revive x y).cells.getD j Cell.Dead = u.cells.getD j Cell.Dead) ∧
      (u.kill x y).width = u.width ∧ (u.kill x y).height = u.height ∧
      (u.kill x y).running = u.running ∧ (u.kill x y).x_offset = u.x_offset ∧
      (u.revive x y).width = u.width ∧ (u.revive x y).height = u.height ∧
      (u.revive x y).running = u.running ∧ (u.revive x y).x_offset = u.x_offset) := by
  constructor
  · intro h
    constructor
    · simp [Universe.kill, h]
    · simp [Universe.revive, h]
  · intro idx h
    have hb := get_by_coordinates_some_bounds u x y idx h
    have hidx : idx < u.cells.length := by rw [hinv]; exact hb.2.2.1
    have hkill : (u.kill x y).cells = u.cells.set idx Cell.Dead := by
      simp [Universe.kill, h]
    have hrevive : (u.revive x y).cells = u.cells.set idx Cell.Alive := by
      simp [Universe.revive, h]
    refine ⟨hidx, hkill, hrevive, ?_, ?_, ?_, ?_, ?_, ?_, ?_, ?_, ?_, ?_, ?_⟩
    · rw [hkill, List.getD_eq_getElem?_getD,
        List.getElem?_set_eq_of_lt _ (by simpa using hidx)]
      rfl
    · rw [hrevive, List.getD_eq_getElem?_getD,
        List.getElem?_set_eq_of_lt _ (by simpa using hidx)]
      rfl
    · intro j hj
      constructor
      · rw [hkill, List.getD_eq_getElem?_getD, List.getElem?_set_ne (by omega),
          ← List.getD_eq_getElem?_getD]
      · rw [hrevive, List.getD_eq_getElem?_getD, List.getElem?_set_ne (by omega),
          ← List.getD_eq_getElem?_getD]
    · simp [Universe.kill, h]
    · simp [Universe.kill, h]
    · simp [Universe.kill, h]
    · simp [Universe.kill, h]
    · simp [Universe.revive, h]
    · simp [Universe.revive, h]
    · simp [Universe.revive, h]
    · simp [Universe.revive, h]

/-- Witness for claim C7 at a fresh 2×2 grid and the concrete pixel
`(5, 17)` (which resolves to cell 2). -/
theorem kill_revive_resolve_or_noop_witness :
    ((Universe.new 2 2).get_by_coordinates 5 17 = none →
      (Universe.new 2 2).kill 5 17 = Universe.new 2 2 ∧
      (Universe.new 2 2).revive 5 17 = Universe.new 2 2) ∧
    (∀ idx, (Universe.new 2 2).get_by_coordinates 5 17 = some idx →
      idx < (Universe.new 2 2).cells.length ∧
      ((Universe.new 2 2).kill 5 17).cells = (Universe.new 2 2).cells.set idx Cell.Dead ∧
      ((Universe.new 2 2).revive 5 17).cells = (Universe.new 2 2).cells.set idx Cell.Alive ∧
      ((Universe.new 2 2).kill 5 17).cells.getD idx Cell.Alive = Cell.Dead ∧
      ((Universe.new 2 2).revive 5 17).cells.getD idx Cell.Dead = Cell.Alive ∧
      (∀ j, j ≠ idx →
        ((Universe.new 2 2).kill 5 17).cells.getD j Cell.Dead
          = (Universe.new 2 2).cells.getD j Cell.Dead ∧
        ((Universe.new 2 2).revive 5 17).cells.getD j Cell.Dead
          = (Universe.new 2 2).cells.getD j Cell.Dead) ∧
      ((Universe.new 2 2).kill 5 17).width = (Universe.new 2 2).width ∧
      ((Universe.new 2 2).kill 5 17).height = (Universe.new 2 2).height ∧
      ((Universe.new 2 2).kill 5 17).running = (Universe.new 2 2).running ∧
      ((Universe.new 2 2).kill 5 17).x_offset = (Universe.new 2 2).x_offset ∧
      ((Universe.new 2 2).revive 5 17).width = (Universe.new 2 2).width ∧
      ((Universe.new 2 2).revive 5 17).height = (Universe.new 2 2).height ∧
      ((Universe.new 2 2).revive 5 17).running = (Universe.new 2 2).running ∧
      ((Universe.new 2 2).revive 5 17).x_offset = (Universe.new 2 2).x_offset) :=
  kill_revive_resolve_or_noop (Universe.new 2 2) 5 17 (by decide)

/-- The cell stride of a freshly created grid is `(10 + 1 * 2) * 1 = 12`. -/
theorem cellStep_new (h w : Nat) : (Universe.new h w).cellStep = 12 := by
  norm_num [Universe.cellStep, ratTrunc, Universe.new]

/-- The claim's cell pixel size of a freshly created grid is 12 as well. -/
theorem cellPixelSizeSpec_new (h w : Nat) : (Universe.new h w).cellPixelSizeSpec = 12 := by
  norm_num [Universe.cellPixelSizeSpec, Universe.new]

/-- The drawn square's side on a freshly created grid is 10 pixels. -/
theorem legPx_new (h w : Nat) : (Universe.new h w).legPx = 10 := by
  norm_num [Universe.legPx, Universe.new]
  decide

/-- `chunks` of a list of length `w * h` yields the `h` row slices. -/
theorem chunks_eq {α : Type} (w : Nat) (hw : 0 < w) :
    ∀ (h : Nat) (l : List α), l.length = w * h →
    chunks w l = (List.range h).map (fun r => (l.drop (r * w)).take w) := by
  intro h
  induction h with
  | zero =>
      intro l hl
      have hnil : l = [] := List.eq_nil_of_length_eq_zero (by simpa using hl)
      subst hnil
      simp [chunks]
  | succ h ih =>
      intro l hl
      have hm : w * (h + 1) = w * h + w := Nat.mul_succ w h
      have hlpos : 0 < l.length := by rw [hl, hm]; omega
      obtain ⟨c, rest, rfl⟩ : ∃ c rest, l = c :: rest := by
        cases l with
        | nil => simp at hlpos
        | cons c rest => exact ⟨c, rest, rfl⟩
      rw [chunks, dif_neg (by omega)]
      have hdrop : ((c :: rest).drop w).length = w * h := by
        simp only [List.length_drop, List.length_cons]
        simp only [List.length_cons] at hl
        omega
      rw [ih _ hdrop, List.range_succ_eq_map, List.map_cons, List.map_map]
      congr 1
      · simp
      · apply List.map_congr_left
        intro r _
        simp only [Function.comp_apply]
        rw [List.drop_drop]
        have harith : w + r * w = Nat.succ r * w := by
          rw [Nat.succ_mul]
          omega
        rw [harith]

/-- A list of length `w * h` splits into `h` chunks. -/
theorem chunks_length {α : Type} (w h : Nat) (hw : 0 < w) (l : List α)
    (hl : l.length = w * h) : (chunks w l).length = h := by
  rw [chunks_eq w hw h l hl]
  simp

/-- The `r`-th chunk of a list of length `w * h` is its `r`-th row slice. -/
theorem chunks_getD {α : Type} (w h : Nat) (hw : 0 < w) (l : List α)
    (hl : l.length = w * h) (r : Nat) (hr : r < h) :
    (chunks w l).getD r [] = (l.drop (r * w)).take w := by
  rw [chunks_eq w hw h l hl, List.getD_eq_getElem?_getD, List.getElem?_map,
    List.getElem?_range hr]
  rfl

/-- Every position of a row produces a rectangle in the row's draw calls,
`i` cell strides right of the row's starting abscissa. -/
theorem renderRow_mem (u : Universe) (cy : Int) :
    ∀ (cells : List Cell) (cx : Int) (i : Nat), i < cells.length →
    ∃ rect ∈ Universe.renderRow u cy cx cells,
      rect.x = cx + (i : Int) * u.cellStep ∧ rect.y = cy ∧
      rect.w = u.legPx ∧ rect.h = u.legPx := by
  intro cells
  induction cells with
  | nil => intro cx i hi; simp at hi
  | cons c rest ih =>
      intro cx i hi
      cases i with
      | zero =>
          simp only [Universe.renderRow]
          exact ⟨_, List.mem_cons_self _ _, by simp, rfl, rfl, rfl⟩
      | succ i' =>
          obtain ⟨rect, hmem, hx, hy, hw', hh'⟩ := ih (cx + u.cellStep) i' (by simpa using hi)
          simp only [Universe.renderRow]
          refine ⟨rect, List.mem_cons_of_mem _ hmem, ?_, hy, hw', hh'⟩
          rw [hx]
          push_cast
          ring

/-- A rectangle of the `r`-th row's draw calls (whose ordinate is `r` cell
strides below the starting ordinate) is a rectangle of the whole traversal. -/
theorem renderRows_mem (u : Universe) :
    ∀ (rows : List (List Cell)) (cy : Int) (r : Nat), r < rows.length →
    ∀ rect ∈ Universe.renderRow u (cy + (r : Int) * u.cellStep) u.x_offset (rows.getD r []),
      rect ∈ Universe.renderRows u cy rows := by
  intro rows
  induction rows with
  | nil => intro cy r hr; simp at hr
  | cons row rest ih =>
      intro cy r hr rect hmem
      simp only [Universe.renderRows]
      rw [List.mem_append]
      cases r with
      | zero =>
          left
          simpa using hmem
      | succ r' =>
          right
          apply ih (cy + u.cellStep) r' (by simpa using hr) rect
          rw [List.getD_cons_succ] at hmem
          have harith : cy + ((r' + 1 : Nat) : Int) * u.cellStep
              = cy + u.cellStep + (r' : Int) * u.cellStep := by
            push_cast
            ring
          rwa [harith] at hmem

/-- Claim C6 (amended): for a grid whose cell pixel size is at least 1 and a
pixel that resolves to a cell, `render` computes for that cell a rectangle
whose top-left corner is `(x_offset + col * cell_pixel_size, y_offset +
row * cell_pixel_size)` with the drawn side `floor(leg_size * scale)`, and
the pixel lies inside the cell's full footprint — within one cell stride
right and below that top-left corner.  The drawn rectangle itself need not
contain the pixel: a pixel in the spacing gutter resolves to the cell but
falls outside the smaller drawn square. -/
theorem pixel_roundtrip_in_cell_footprint (u : Universe) (x y : Int) (idx : Nat)
    (hsize : 1 ≤ u.cellPixelSizeSpec)
    (hinv : u.cells.length = u.width * u.height)
    (h : u.get_by_coordinates x y = some idx) :
    ∃ rect ∈ u.render,
      rect.x = u.x_offset + ((idx % u.width : Nat) : Int) * u.cellStep ∧
      rect.y = u.y_offset + ((idx / u.width : Nat) : Int) * u.cellStep ∧
      rect.w = u.legPx ∧ rect.h = u.legPx ∧
      rect.x ≤ x ∧ x < rect.x + u.cellStep ∧
      rect.y ≤ y ∧ y < rect.y + u.cellStep := by
  obtain ⟨hw0, hh0, hlt, hidx, hy0, hyh, hx0, hxw⟩ :=
    get_by_coordinates_some_bounds u x y idx h
  have hstep1 : (1 : Int) ≤ u.cellStep := by
    rw [cellStep_eq_spec u hsize]
    exact hsize
  set yi := Int.fdiv (y - u.y_offset) u.cellStep with hyidef
  set xi := Int.fdiv (x - u.x_offset) u.cellStep with hxidef
  have hcolN : xi.toNat < u.width := by omega
  have hrowN : yi.toNat < u.height := by omega
  have hmod : idx % u.width = xi.toNat := by
    rw [hidx, Nat.mul_comm, Nat.mul_add_mod]
    exact Nat.mod_eq_of_lt hcolN
  have hdiv : idx / u.width = yi.toNat := by
    rw [hidx, Nat.mul_comm, Nat.mul_add_div hw0, Nat.div_eq_of_lt hcolN]
    omega
  have hrowbound : yi.toNat * u.width + u.width ≤ u.width * u.height := by
    calc yi.toNat * u.width + u.width = (yi.toNat + 1) * u.width :=
          (Nat.succ_mul _ _).symm
      _ ≤ u.height * u.width := Nat.mul_le_mul_right _ (by omega)
      _ = u.width * u.height := Nat.mul_comm _ _
  have hrowlen : ((u.cells.drop (yi.toNat * u.width)).take u.width).length = u.width := by
    simp only [List.length_take, List.length_drop, hinv]
    omega
  obtain ⟨rect, hrmem, hrx, hry, hrw, hrh⟩ :=
    renderRow_mem u (u.y_offset + (yi.toNat : Int) * u.cellStep)
      ((u.cells.drop (yi.toNat * u.width)).take u.width) u.x_offset xi.toNat
      (by rw [hrowlen]; exact hcolN)
  have hrows : rect ∈ u.render := by
    rw [Universe.render]
    apply renderRows_mem u (chunks u.width u.cells) u.y_offset yi.toNat
    · rw [chunks_length u.width u.height hw0 u.cells hinv]
      exact hrowN
    · rw [chunks_getD u.width u.height hw0 u.cells hinv yi.toNat hrowN]
      exact hrmem
  have hxiN : ((xi.toNat : Nat) : Int) = xi := Int.toNat_of_nonneg hx0
  have hyiN : ((yi.toNat : Nat) : Int) = yi := Int.toNat_of_nonneg hy0
  have hxed : xi = (x - u.x_offset) / u.cellStep := by
    rw [hxidef]
    exact Int.fdiv_eq_ediv _ (by omega)
  have hyed : yi = (y - u.y_offset) / u.cellStep := by
    rw [hyidef]
    exact Int.fdiv_eq_ediv _ (by omega)
  have hxdm := Int.ediv_add_emod (x - u.x_offset) u.cellStep
  have hxr0 := Int.emod_nonneg (x - u.x_offset) (show u.cellStep ≠ 0 by omega)
  have hxrlt := Int.emod_lt_of_pos (x - u.x_offset) (show (0 : Int) < u.cellStep by omega)
  have hydm := Int.ediv_add_emod (y - u.y_offset) u.cellStep
  have hyr0 := Int.emod_nonneg (y - u.y_offset) (show u.cellStep ≠ 0 by omega)
  have hyrlt := Int.emod_lt_of_pos (y - u.y_offset) (show (0 : Int) < u.cellStep by omega)
  have hxc : xi * u.cellStep = u.cellStep * ((x - u.x_offset) / u.cellStep) := by
    rw [hxed]
    ring
  have hyc : yi * u.cellStep = u.cellStep * ((y - u.y_offset) / u.cellStep) := by
    rw [hyed]
    ring
  refine ⟨rect, hrows, ?_, ?_, hrw, hrh, ?_, ?_, ?_, ?_⟩
  · rw [hrx, hmod]
  · rw [hry, hdiv]
  · rw [hrx, hxiN, hxc]
    omega
  · rw [hrx, hxiN, hxc]
    omega
  · rw [hry, hyiN, hyc]
    omega
  · rw [hry, hyiN, hyc]
    omega

/-- Witness for claim C6 at a fresh 2×2 grid and the pixel `(13, 1)`, which
resolves to cell 1 (row 0, column 1). -/
theorem pixel_roundtrip_in_cell_footprint_witness :
    ∃ rect ∈ (Universe.new 2 2).render,
      rect.x = (Universe.new 2 2).x_offset
          + ((1 % (Universe.new 2 2).width : Nat) : Int) * (Universe.new 2 2).cellStep ∧
      rect.y = (Universe.new 2 2).y_offset
          + ((1 / (Universe.new 2 2).width : Nat) : Int) * (Universe.new 2 2).cellStep ∧
      rect.w = (Universe.new 2 2).legPx ∧ rect.h = (Universe.new 2 2).legPx ∧
      rect.x ≤ 13 ∧ 13 < rect.x + (Universe.new 2 2).cellStep ∧
      rect.y ≤ 1 ∧ 1 < rect.y + (Universe.new 2 2).cellStep :=
  pixel_roundtrip_in_cell_footprint (Universe.new 2 2) 13 1 1
    (by rw [cellPixelSizeSpec_new]; decide)
    (by decide)
    (by simp only [Universe.get_by_coordinates, cellStep_new]; decide)

/-- Counterexample to claim C6 as stated: on a fresh 3×3 grid the pixel
`(11, 0)` sits in the spacing gutter of cell 0: it resolves to cell index 0,
whose rendered rectangle is the 10×10 square at the origin (the first draw
call), yet `11 < 0 + 10` fails, so that rectangle does not contain the
pixel. -/
theorem render_rect_misses_gutter_point :
    (Universe.new 3 3).get_by_coordinates 11 0 = some 0 ∧
    ((Universe.new 3 3).render).head? = some
      { x := 0, y := 0, w := 10, h := 10, alive := false } ∧
    ¬ ((0 : Int) ≤ 11 ∧ (11 : Int) < 0 + 10 ∧ (0 : Int) ≤ 0 ∧ (0 : Int) < 0 + 10) := by
  refine ⟨?_, ?_, by decide⟩
  · simp only [Universe.get_by_coordinates, cellStep_new]
    decide
  · norm_num [Universe.render, Universe.new, Universe.renderRows,
      Universe.renderRow, chunks, Universe.legPx, Universe.cellStep, ratTrunc,
      List.replicate_succ]
    decide
